import Mathlib

/-
Verification of the batched, rate-limited inference pipeline of the
ocr-quality-test repository.

The development shallowly embeds three parts of the source:

1. The `chunk` / `processFilesBatch` / `analyzeReceipts` pipeline
   (src/unnamed/part_000 lines 187-258, duplicated in src/unnamed/part_004).
   The external collaborators (inference call, transformation, persistence)
   are parameters of type `ι → Except ε π`, `π → Except ε ρ`,
   `ρ → Except ε Unit`; the run is a pure function of them.  The
   `Promise.allSettled` fan-out is embedded sequentially in submission
   order, which is exactly the order in which `allSettled` reports the
   settled outcomes and in which `.map` fires the calls, so every
   observable modelled here (result list, invocation log) is the one the
   source produces regardless of completion order.

2. The `processOCR` / `saveOCRResults` script
   (src/src/scripts/ocr/index.ts lines 117-218), including an event-trace
   model of when records and the consolidated manifest are persisted.

3. The `ReceiptComparator` of src/src/scripts/evaluate/index.ts
   (compareReceipts, lines 70-93, and the mismatch count, lines 125-127).
-/

/-! ## BatchScheduler: `chunk` (src/unnamed/part_000 lines 215-220)

`chunk` in the source is

  Array.from({ length: Math.ceil(array.length / size) },
             (_, i) => array.slice(i * size, i * size + size))

For `0 < size` this is the list of slices below.  JavaScript gives the
degenerate sizes a definite meaning, which `chunk` reproduces:
for `size = 0` and a nonempty array, `Math.ceil(n / 0)` is `Infinity`,
`ToLength` clamps it to `2^53 - 1`, and `Array(2^53 - 1)` throws a
`RangeError` before any element is produced; for `size < 0` (or an empty
array at `size = 0`) the computed length is negative or `NaN`, `ToLength`
maps it to `0`, and the result is the empty list of batches. -/

/-- Slice-based chunking: batch `i` is `array.slice(i*size, i*size+size)`,
and there are `Math.ceil(length / size) = (length + size - 1) / size`
batches (the Nat formula agrees with the ceiling for `0 < size`). -/
def chunkSlices {α : Type} (arr : List α) (size : Nat) : List (List α) :=
  (List.range ((arr.length + size - 1) / size)).map
    (fun i => (arr.drop (i * size)).take size)

/-- Result of the JavaScript `chunk`: either a list of batches or the
`RangeError` thrown by `Array.from` on a non-finite computed length. -/
inductive ChunkResult (α : Type) : Type
  | ok (batches : List (List α))
  | rangeError
deriving DecidableEq

/-- The source `chunk`, over an arbitrary integer `size`, with the
JavaScript semantics described above. -/
def chunk {α : Type} (arr : List α) (size : Int) : ChunkResult α :=
  if 0 < size then ChunkResult.ok (chunkSlices arr size.toNat)
  else if size = 0 then
    match arr with
    | [] => ChunkResult.ok []
    | _ :: _ => ChunkResult.rangeError
  else ChunkResult.ok []

/-! ## PipelineController: `processFilesBatch` and `analyzeReceipts`
(src/unnamed/part_000 lines 187-258) -/

/-- Outcome of a whole run: the list of successfully produced records, or
the `RangeError` escaping from `chunk` (nothing in the source catches it). -/
inductive RunOutcome (ρ : Type) : Type
  | ok (records : List ρ)
  | jsRangeError
deriving DecidableEq

/-- The per-item chain inside `processFilesBatch`'s `map` callback
(src/unnamed/part_000 lines 193-206): one inference call
(`inferenceByOpenAI`), then the transformation (`transformToReceiptData`),
then persistence (`saveReceiptToJson`); any stage's error rejects the
item's promise, a full success fulfills it with the record. -/
def processItem {ι π ρ ε : Type} (invoke : ι → Except ε π)
    (transform : π → Except ε ρ) (save : ρ → Except ε Unit)
    (item : ι) : Except ε ρ :=
  match invoke item with
  | Except.error e => Except.error e
  | Except.ok payload =>
    match transform payload with
    | Except.error e => Except.error e
    | Except.ok record =>
      match save record with
      | Except.error e => Except.error e
      | Except.ok _ => Except.ok record

/-- The per-item chain instrumented with the log of inference-invoker
calls: the chain performs exactly one `invoke` call (there is no retry in
the source), recorded by appending the item to the log before the stages
are inspected. -/
def processItemL {ι π ρ ε : Type} (invoke : ι → Except ε π)
    (transform : π → Except ε ρ) (save : ρ → Except ε Unit)
    (item : ι) (log : List ι) : Except ε ρ × List ι :=
  let logAfterCall := log ++ [item]
  match invoke item with
  | Except.error e => (Except.error e, logAfterCall)
  | Except.ok payload =>
    match transform payload with
    | Except.error e => (Except.error e, logAfterCall)
    | Except.ok record =>
      match save record with
      | Except.error e => (Except.error e, logAfterCall)
      | Except.ok _ => (Except.ok record, logAfterCall)

/-- One step of the `Promise.allSettled` fan-out of `processFilesBatch`
(src/unnamed/part_000 lines 192-212): the settled outcomes are reported in
submission order, the fulfilled ones are kept (`filter` on
`status === 'fulfilled'`) and their values collected (`map`); rejected
items contribute nothing.  The invocation log is threaded through. -/
def batchStep {ι π ρ ε : Type} (invoke : ι → Except ε π)
    (transform : π → Except ε ρ) (save : ρ → Except ε Unit) :
    List ρ × List ι → ι → List ρ × List ι :=
  fun st item =>
    let res := processItemL invoke transform save item st.2
    match res.1 with
    | Except.ok record => (st.1 ++ [record], res.2)
    | Except.error _ => (st.1, res.2)

/-- `processFilesBatch` over one batch, returning the batch's fulfilled
records in submission order together with the updated invocation log. -/
def processFilesBatchL {ι π ρ ε : Type} (invoke : ι → Except ε π)
    (transform : π → Except ε ρ) (save : ρ → Except ε Unit)
    (batch : List ι) (log : List ι) : List ρ × List ι :=
  batch.foldl (batchStep invoke transform save) ([], log)

/-- One iteration of the batch loop of `analyzeReceipts`
(src/unnamed/part_000 lines 242-255): process the batch, append its
results to `allResults` (`allResults.push(...batchResults)`). -/
def runStep {ι π ρ ε : Type} (invoke : ι → Except ε π)
    (transform : π → Except ε ρ) (save : ρ → Except ε Unit) :
    List ρ × List ι → List ι → List ρ × List ι :=
  fun st batch =>
    let res := processFilesBatchL invoke transform save batch st.2
    (st.1 ++ res.1, res.2)

/-- `analyzeReceipts` (src/unnamed/part_000 lines 224-258) with the
invocation log: chunk the work items, process the batches strictly in
index order, concatenate the per-batch results.  The work-item list is
taken as a parameter (the source materializes it up front from `dirPath`
and `maxFiles`); the inter-batch sleep does not affect the returned value
and is modelled separately by `rateLimitSleep`. -/
def analyzeReceiptsL {ι π ρ ε : Type} (invoke : ι → Except ε π)
    (transform : π → Except ε ρ) (save : ρ → Except ε Unit)
    (items : List ι) (batchSize : Int) : RunOutcome ρ × List ι :=
  match chunk items batchSize with
  | ChunkResult.rangeError => (RunOutcome.jsRangeError, [])
  | ChunkResult.ok batches =>
    let st := batches.foldl (runStep invoke transform save) ([], [])
    (RunOutcome.ok st.1, st.2)

/-- The value `analyzeReceipts` resolves with (or the error it rejects
with): the run outcome component of the instrumented run. -/
def analyzeReceipts {ι π ρ ε : Type} (invoke : ι → Except ε π)
    (transform : π → Except ε ρ) (save : ρ → Except ε Unit)
    (items : List ι) (batchSize : Int) : RunOutcome ρ :=
  (analyzeReceiptsL invoke transform save items batchSize).1

/-- The list of inference-invoker calls a run performs, in the order the
source fires them. -/
def invocationLog {ι π ρ ε : Type} (invoke : ι → Except ε π)
    (transform : π → Except ε ρ) (save : ρ → Except ε Unit)
    (items : List ι) (batchSize : Int) : List ι :=
  (analyzeReceiptsL invoke transform save items batchSize).2

/-! ## RateLimiter -/

/-- The inter-batch wait of `analyzeReceipts` (src/unnamed/part_000 lines
249-254): after a batch that is not the last one
(`i < batches.length - 1`, here `notLast = true`), if the elapsed time is
below the window the controller sleeps for the remainder, otherwise it
does not sleep; after the last batch it never sleeps. -/
def rateLimitSleep (elapsed window : Int) (notLast : Bool) : Int :=
  if elapsed < window ∧ notLast = true then window - elapsed else 0

/-- The inter-chunk wait of `processOCR` (src/src/scripts/ocr/index.ts
lines 163-167): after every chunk except the last the controller sleeps a
fixed 60000 ms; the elapsed time is not measured and does not influence
the wait. -/
def processOCRSleep (notLast : Bool) : Int :=
  if notLast = true then 60000 else 0

/-! ## processOCR / saveOCRResults (src/src/scripts/ocr/index.ts)

Work items (`F`) are the directory entries; `nameOf` is
`path.parse(file).name`, the identifier under which a success is recorded;
`analyze` is `analyzeImage`.  `results` is a JavaScript `Map`, embedded as
an association list with `Map.set` semantics. -/

/-- JavaScript `Map.set`: overwrite the value in place if the key is
present, otherwise append the binding at the end. -/
def mapSet {N ρ : Type} [DecidableEq N] :
    List (N × ρ) → N → ρ → List (N × ρ)
  | [], k, v => [(k, v)]
  | p :: rest, k, v =>
    if p.1 = k then (k, v) :: rest else p :: mapSet rest k v

/-- JavaScript `Map.get` / object property lookup on the manifest. -/
def lookupMap {N ρ : Type} [DecidableEq N] :
    List (N × ρ) → N → Option ρ
  | [], _ => none
  | p :: rest, n => if p.1 = n then some p.2 else lookupMap rest n

/-- One file of a chunk in `processOCR` (src/src/scripts/ocr/index.ts
lines 146-158): on success the record is recorded under the file's parsed
name (`results.set(originalName, result)`); on failure the error is
caught, logged, and the map is left unchanged. -/
def ocrStep {F N ρ ε : Type} [DecidableEq N] (analyze : F → Except ε ρ)
    (nameOf : F → N) : List (N × ρ) → F → List (N × ρ) :=
  fun results file =>
    match analyze file with
    | Except.ok record => mapSet results (nameOf file) record
    | Except.error _ => results

/-- The `results` map built by `processOCR` (src/src/scripts/ocr/index.ts
lines 117-176): the files are processed in chunks of 50, chunks strictly
in order, and each file contributes through `ocrStep`. -/
def processOCRRun {F N ρ ε : Type} [DecidableEq N]
    (analyze : F → Except ε ρ) (nameOf : F → N) (files : List F) :
    List (N × ρ) :=
  (chunkSlices files 50).foldl
    (fun results c => c.foldl (ocrStep analyze nameOf) results) []

/-- Whether an `Except` is a success (`fulfilled`). -/
def exceptIsOk {ε ρ : Type} : Except ε ρ → Bool
  | Except.ok _ => true
  | Except.error _ => false

/-- Observable events of the `main` run of src/src/scripts/ocr/index.ts:
an item reaching its terminal state, a per-item record file being written,
and the consolidated manifest (`all_results.json`) being written. -/
inductive RunEvent (N ρ : Type) : Type
  | completed (name : N) (success : Bool)
  | persistRecord (name : N) (record : ρ)
  | persistManifest (entries : List (N × ρ))
deriving DecidableEq

/-- Events emitted while `processOCR` runs: every file reaches a terminal
state (success or caught failure); `processOCR` persists nothing. -/
def processOCRTrace {F N ρ ε : Type} (analyze : F → Except ε ρ)
    (nameOf : F → N) (files : List F) : List (RunEvent N ρ) :=
  files.map (fun f => RunEvent.completed (nameOf f) (exceptIsOk (analyze f)))

/-- Events emitted by `saveOCRResults` (src/src/scripts/ocr/index.ts lines
178-218): one record file per entry of the results map, then the single
consolidated manifest write (`Object.fromEntries(results)`). -/
def saveOCRTrace {N ρ : Type} (results : List (N × ρ)) :
    List (RunEvent N ρ) :=
  (results.map (fun p => RunEvent.persistRecord p.1 p.2))
    ++ [RunEvent.persistManifest results]

/-- The event trace of `main` (src/src/scripts/ocr/index.ts lines
220-230): `processOCR` runs to completion, then `saveOCRResults` is
called on its result. -/
def mainTrace {F N ρ ε : Type} [DecidableEq N] (analyze : F → Except ε ρ)
    (nameOf : F → N) (files : List F) : List (RunEvent N ρ) :=
  processOCRTrace analyze nameOf files
    ++ saveOCRTrace (processOCRRun analyze nameOf files)

/-- Effect of one event on the persisted consolidated manifest: only a
manifest write changes it (it overwrites the whole file). -/
def manifestUpd {N ρ : Type} :
    List (N × ρ) → RunEvent N ρ → List (N × ρ) :=
  fun m e =>
    match e with
    | RunEvent.persistManifest entries => entries
    | _ => m

/-- The persisted consolidated manifest after the first `k` events of a
trace (no manifest exists before the first write). -/
def manifestAt {N ρ : Type} (trace : List (RunEvent N ρ)) (k : Nat) :
    List (N × ρ) :=
  (trace.take k).foldl manifestUpd []

/-! ## ReceiptComparator (src/src/scripts/evaluate/index.ts) -/

/-- The record shape both scripts compare. -/
structure Receipt : Type where
  date : String
  invoice_number : String
  store_name : String
  tax_10_amount : Int
  tax_8_amount : Int
  total_amount : Int
deriving DecidableEq

/-- The keys of `Receipt`, as enumerated by `this.fields`. -/
inductive ReceiptField : Type
  | date
  | invoice_number
  | store_name
  | tax_10_amount
  | tax_8_amount
  | total_amount
deriving DecidableEq

/-- `COMPARISON_SYMBOLS`: MATCH renders as a check mark, MISMATCH as a
cross. -/
inductive ComparisonSymbol : Type
  | MATCH
  | MISMATCH
deriving DecidableEq

/-- One row of the comparison CSV. -/
structure ComparisonRow : Type where
  file_name : String
  field : ReceiptField
  outputs_value : String
  evaluate_value : String
  comparison_result : ComparisonSymbol
deriving DecidableEq

/-- The field list `this.fields` of `ReceiptComparator`. -/
def fields : List ReceiptField :=
  [ReceiptField.date, ReceiptField.invoice_number, ReceiptField.store_name,
   ReceiptField.tax_10_amount, ReceiptField.tax_8_amount,
   ReceiptField.total_amount]

/-- JavaScript `String(data[field])`: identity on the string fields,
decimal rendering on the numeric fields. -/
def renderField (r : Receipt) : ReceiptField → String
  | ReceiptField.date => r.date
  | ReceiptField.invoice_number => r.invoice_number
  | ReceiptField.store_name => r.store_name
  | ReceiptField.tax_10_amount => toString r.tax_10_amount
  | ReceiptField.tax_8_amount => toString r.tax_8_amount
  | ReceiptField.total_amount => toString r.total_amount

/-- `compareReceipts` (src/src/scripts/evaluate/index.ts lines 70-93) for
one file whose two sides were read successfully: one row per field;
`store_name` is unconditionally a MATCH, every other field compares the
two string renderings. -/
def compareReceipts (fileName : String)
    (outputsData evaluateData : Receipt) : List ComparisonRow :=
  fields.map (fun field =>
    { file_name := fileName
      field := field
      outputs_value := renderField outputsData field
      evaluate_value := renderField evaluateData field
      comparison_result :=
        if field = ReceiptField.store_name then ComparisonSymbol.MATCH
        else if renderField outputsData field = renderField evaluateData field
          then ComparisonSymbol.MATCH
          else ComparisonSymbol.MISMATCH })

/-- The reported difference count (src/src/scripts/evaluate/index.ts lines
125-127): the number of MISMATCH rows. -/
def mismatchCount (rows : List ComparisonRow) : Nat :=
  (rows.filter
    (fun row => decide (row.comparison_result = ComparisonSymbol.MISMATCH))).length

/-! ## Lemmas about `chunkSlices` and `chunk` -/

theorem chunkSlices_length {α : Type} (arr : List α) (size : Nat) :
    (chunkSlices arr size).length = (arr.length + size - 1) / size := by
  simp [chunkSlices]

theorem chunkSlices_nil {α : Type} (size : Nat) :
    chunkSlices ([] : List α) size = [] := by
  unfold chunkSlices
  have h : (List.length ([] : List α) + size - 1) / size = 0 := by
    rcases Nat.eq_zero_or_pos size with h0 | h0
    · simp [h0]
    · simp only [List.length_nil, Nat.zero_add]
      exact Nat.div_eq_of_lt (by omega)
  rw [h]
  rfl

theorem chunkSlices_cons {α : Type} {arr : List α} {size : Nat}
    (hk : 0 < size) (harr : arr ≠ []) :
    chunkSlices arr size = arr.take size :: chunkSlices (arr.drop size) size := by
  have hn : 0 < arr.length := List.length_pos.mpr harr
  unfold chunkSlices
  have hlen : (arr.length + size - 1) / size
      = ((arr.drop size).length + size - 1) / size + 1 := by
    rw [List.length_drop]
    have h2 : arr.length + size - 1 = (arr.length - 1) + size := by omega
    rw [h2, Nat.add_div_right _ hk]
    rcases Nat.le_total arr.length size with h | h
    · have h1 : arr.length - size + size - 1 = size - 1 := by omega
      rw [h1, Nat.div_eq_of_lt (by omega : arr.length - 1 < size),
        Nat.div_eq_of_lt (by omega : size - 1 < size)]
    · have h1 : arr.length - size + size - 1 = arr.length - 1 := by omega
      rw [h1]
  rw [hlen, List.range_succ_eq_map]
  simp only [List.map_cons, List.map_map]
  congr 1
  · simp
  · apply List.map_congr_left
    intro i _
    simp only [Function.comp_apply]
    rw [List.drop_drop, Nat.succ_mul, Nat.add_comm (i * size) size]

theorem chunkSlices_flatten {α : Type} {size : Nat} (hk : 0 < size) :
    ∀ arr : List α, (chunkSlices arr size).flatten = arr := by
  have aux : ∀ (n : Nat) (arr : List α), arr.length ≤ n →
      (chunkSlices arr size).flatten = arr := by
    intro n
    induction n with
    | zero =>
      intro arr h
      have : arr = [] := List.eq_nil_of_length_eq_zero (by omega)
      rw [this, chunkSlices_nil]
      rfl
    | succ n ih =>
      intro arr h
      rcases eq_or_ne arr [] with harr | harr
      · rw [harr, chunkSlices_nil]; rfl
      · have hn : 0 < arr.length := List.length_pos.mpr harr
        rw [chunkSlices_cons hk harr]
        rw [List.flatten_cons]
        rw [ih (arr.drop size) (by rw [List.length_drop]; omega)]
        exact List.take_append_drop size arr
  intro arr
  exact aux arr.length arr le_rfl

theorem chunkSlices_get {α : Type} {arr : List α} {size i : Nat}
    (h : i < (chunkSlices arr size).length) :
    (chunkSlices arr size).get ⟨i, h⟩ = (arr.drop (i * size)).take size := by
  simp [chunkSlices]

theorem chunkSlices_size_of_not_last {α : Type} {arr : List α} {size i : Nat}
    (hk : 0 < size) (h : i + 1 < (chunkSlices arr size).length) :
    ((chunkSlices arr size).get ⟨i, Nat.lt_of_succ_lt h⟩).length = size := by
  rw [chunkSlices_get, List.length_take, List.length_drop]
  rw [chunkSlices_length] at h
  have h2 : (i + 2) * size ≤ arr.length + size - 1 := by
    have := (Nat.le_div_iff_mul_le hk).mp (by omega : i + 2 ≤ (arr.length + size - 1) / size)
    exact this
  have h3 : (i + 2) * size = i * size + size + size := by ring
  rw [h3] at h2
  generalize i * size = m at h2 ⊢
  omega

theorem chunk_pos {α : Type} (arr : List α) (B : Nat) (hB : 0 < B) :
    chunk arr (B : Int) = ChunkResult.ok (chunkSlices arr B) := by
  unfold chunk
  rw [if_pos (by exact_mod_cast hB)]
  simp

/-! ## Lemmas about the pipeline run -/

theorem processItemL_eq {ι π ρ ε : Type} (invoke : ι → Except ε π)
    (transform : π → Except ε ρ) (save : ρ → Except ε Unit)
    (item : ι) (log : List ι) :
    processItemL invoke transform save item log
      = (processItem invoke transform save item, log ++ [item]) := by
  unfold processItemL processItem
  rcases h1 : invoke item with e | payload
  · simp [h1]
  · rcases h2 : transform payload with e | record
    · simp [h1, h2]
    · rcases h3 : save record with e | u
      · simp [h1, h2, h3]
      · simp [h1, h2, h3]

theorem batchStep_eq {ι π ρ ε : Type} (invoke : ι → Except ε π)
    (transform : π → Except ε ρ) (save : ρ → Except ε Unit)
    (st : List ρ × List ι) (item : ι) :
    batchStep invoke transform save st item
      = (st.1 ++ (processItem invoke transform save item).toOption.toList,
         st.2 ++ [item]) := by
  simp only [batchStep, processItemL_eq]
  cases processItem invoke transform save item <;> simp [Except.toOption]

theorem processFilesBatchL_eq {ι π ρ ε : Type} (invoke : ι → Except ε π)
    (transform : π → Except ε ρ) (save : ρ → Except ε Unit)
    (batch : List ι) (log : List ι) :
    processFilesBatchL invoke transform save batch log
      = (batch.filterMap (fun it => (processItem invoke transform save it).toOption),
         log ++ batch) := by
  have aux : ∀ (b : List ι) (acc : List ρ) (lg : List ι),
      b.foldl (batchStep invoke transform save) (acc, lg)
        = (acc ++ b.filterMap (fun it => (processItem invoke transform save it).toOption),
           lg ++ b) := by
    intro b
    induction b with
    | nil => intro acc lg; simp
    | cons it rest ih =>
      intro acc lg
      rw [List.foldl_cons, batchStep_eq, ih]
      cases h : processItem invoke transform save it <;>
        simp [h, Except.toOption]
  unfold processFilesBatchL
  rw [aux]
  simp

theorem foldl_runStep {ι π ρ ε : Type} (invoke : ι → Except ε π)
    (transform : π → Except ε ρ) (save : ρ → Except ε Unit)
    (batches : List (List ι)) (acc : List ρ) (log : List ι) :
    batches.foldl (runStep invoke transform save) (acc, log)
      = (acc ++ batches.flatten.filterMap
            (fun it => (processItem invoke transform save it).toOption),
         log ++ batches.flatten) := by
  induction batches generalizing acc log with
  | nil => simp
  | cons b bs ih =>
    rw [List.foldl_cons]
    have hstep : runStep invoke transform save (acc, log) b
        = (acc ++ b.filterMap (fun it => (processItem invoke transform save it).toOption),
           log ++ b) := by
      unfold runStep
      rw [processFilesBatchL_eq]
    rw [hstep, ih]
    simp [List.filterMap_append]

theorem analyzeReceiptsL_eq {ι π ρ ε : Type} (invoke : ι → Except ε π)
    (transform : π → Except ε ρ) (save : ρ → Except ε Unit)
    (items : List ι) {B : Int} (hB : 0 < B) :
    analyzeReceiptsL invoke transform save items B
      = (RunOutcome.ok (items.filterMap
            (fun it => (processItem invoke transform save it).toOption)),
         items) := by
  have hBn : 0 < B.toNat := by omega
  have hc : chunk items B = ChunkResult.ok (chunkSlices items B.toNat) := by
    unfold chunk
    rw [if_pos hB]
  unfold analyzeReceiptsL
  rw [hc]
  simp only [foldl_runStep, chunkSlices_flatten hBn, List.nil_append]

/-! ## Lemmas about the results map and the manifest -/

theorem lookupMap_mapSet {N ρ : Type} [DecidableEq N]
    (m : List (N × ρ)) (k n : N) (v : ρ) :
    lookupMap (mapSet m k v) n = if n = k then some v else lookupMap m n := by
  induction m with
  | nil =>
    simp only [mapSet, lookupMap]
    by_cases h : k = n
    · subst h
      simp
    · rw [if_neg h, if_neg (fun hh => h hh.symm)]
  | cons p rest ih =>
    by_cases hp : p.1 = k
    · simp only [mapSet, if_pos hp, lookupMap]
      by_cases h : k = n
      · subst h
        simp
      · rw [if_neg h, if_neg (fun hh => h hh.symm), if_neg (by rw [hp]; exact h)]
    · simp only [mapSet, if_neg hp, lookupMap]
      by_cases hpn : p.1 = n
      · have hnk : ¬n = k := fun hh => hp (hpn.symm ▸ hh)
        rw [if_pos hpn, if_neg hnk, if_pos hpn]
      · rw [if_neg hpn, ih]
        by_cases h : n = k
        · rw [if_pos h, if_pos h]
        · rw [if_neg h, if_neg h, if_neg hpn]

theorem processOCRRun_eq_foldl {F N ρ ε : Type} [DecidableEq N]
    (analyze : F → Except ε ρ) (nameOf : F → N) (files : List F) :
    processOCRRun analyze nameOf files
      = files.foldl (ocrStep analyze nameOf) [] := by
  unfold processOCRRun
  have aux : ∀ (L : List (List F)) (m : List (N × ρ)),
      L.foldl (fun results c => c.foldl (ocrStep analyze nameOf) results) m
        = L.flatten.foldl (ocrStep analyze nameOf) m := by
    intro L
    induction L with
    | nil => intro m; rfl
    | cons c cs ih =>
      intro m
      rw [List.foldl_cons, ih, List.flatten_cons, List.foldl_append]
  rw [aux, chunkSlices_flatten (by norm_num)]

theorem lookupMap_foldl_of_not_mem {F N ρ ε : Type} [DecidableEq N]
    (analyze : F → Except ε ρ) (nameOf : F → N) (n : N) :
    ∀ (files : List F) (m : List (N × ρ)), n ∉ files.map nameOf →
      lookupMap (files.foldl (ocrStep analyze nameOf) m) n = lookupMap m n := by
  intro files
  induction files with
  | nil => intro m _; rfl
  | cons f fs ih =>
    intro m hn
    simp only [List.map_cons, List.mem_cons, not_or] at hn
    rw [List.foldl_cons, ih _ hn.2]
    unfold ocrStep
    cases h : analyze f with
    | error e => rfl
    | ok r => rw [lookupMap_mapSet, if_neg hn.1]

theorem lookupMap_foldl_of_ok {F N ρ ε : Type} [DecidableEq N]
    (analyze : F → Except ε ρ) (nameOf : F → N) :
    ∀ (files : List F) (m : List (N × ρ)) (f : F) (r : ρ),
      (files.map nameOf).Nodup → f ∈ files → analyze f = Except.ok r →
      lookupMap (files.foldl (ocrStep analyze nameOf) m) (nameOf f) = some r := by
  intro files
  induction files with
  | nil => intro m f r _ hf _; exact absurd hf (List.not_mem_nil f)
  | cons g gs ih =>
    intro m f r hnd hf hr
    simp only [List.map_cons, List.nodup_cons] at hnd
    rw [List.foldl_cons]
    rcases List.mem_cons.mp hf with hfg | hfs
    · subst hfg
      have hstep : ocrStep analyze nameOf m f = mapSet m (nameOf f) r := by
        unfold ocrStep
        rw [hr]
      rw [hstep, lookupMap_foldl_of_not_mem analyze nameOf (nameOf f) gs _ hnd.1,
        lookupMap_mapSet, if_pos rfl]
    · exact ih _ f r hnd.2 hfs hr

theorem lookupMap_foldl_some {F N ρ ε : Type} [DecidableEq N]
    (analyze : F → Except ε ρ) (nameOf : F → N) :
    ∀ (files : List F) (m : List (N × ρ)) (n : N) (r : ρ),
      lookupMap (files.foldl (ocrStep analyze nameOf) m) n = some r →
      (∃ f ∈ files, nameOf f = n ∧ analyze f = Except.ok r)
        ∨ lookupMap m n = some r := by
  intro files
  induction files with
  | nil => intro m n r h; exact Or.inr h
  | cons g gs ih =>
    intro m n r h
    rw [List.foldl_cons] at h
    rcases ih _ n r h with hex | hm
    · obtain ⟨f, hf, hn, hr⟩ := hex
      exact Or.inl ⟨f, List.mem_cons_of_mem _ hf, hn, hr⟩
    · unfold ocrStep at hm
      cases hg : analyze g with
      | error e =>
        simp only [hg] at hm
        exact Or.inr hm
      | ok r0 =>
        simp only [hg] at hm
        rw [lookupMap_mapSet] at hm
        by_cases hnk : n = nameOf g
        · rw [if_pos hnk] at hm
          have : r0 = r := by injection hm
          subst this
          exact Or.inl ⟨g, List.mem_cons_self _ _, hnk.symm, hg⟩
        · rw [if_neg hnk] at hm
          exact Or.inr hm

theorem lookupMap_processOCRRun {F N ρ ε : Type} [DecidableEq N]
    (analyze : F → Except ε ρ) (nameOf : F → N) (files : List F)
    (hnd : (files.map nameOf).Nodup) (n : N) (r : ρ) :
    lookupMap (processOCRRun analyze nameOf files) n = some r ↔
      ∃ f ∈ files, nameOf f = n ∧ analyze f = Except.ok r := by
  rw [processOCRRun_eq_foldl]
  constructor
  · intro h
    rcases lookupMap_foldl_some analyze nameOf files [] n r h with hex | hm
    · exact hex
    · simp [lookupMap] at hm
  · rintro ⟨f, hf, rfl, hr⟩
    exact lookupMap_foldl_of_ok analyze nameOf files [] f r hnd hf hr

theorem manifestAt_final {F N ρ ε : Type} [DecidableEq N]
    (analyze : F → Except ε ρ) (nameOf : F → N) (files : List F) :
    manifestAt (mainTrace analyze nameOf files)
        (mainTrace analyze nameOf files).length
      = processOCRRun analyze nameOf files := by
  unfold manifestAt mainTrace saveOCRTrace
  rw [List.take_length, List.foldl_append, List.foldl_append]
  rfl

theorem foldl_manifestUpd_id {N ρ : Type} (l : List (RunEvent N ρ))
    (m : List (N × ρ))
    (h : ∀ e ∈ l, ∀ entries, e ≠ RunEvent.persistManifest entries) :
    l.foldl manifestUpd m = m := by
  induction l generalizing m with
  | nil => rfl
  | cons e es ih =>
    rw [List.foldl_cons]
    have he : manifestUpd m e = m := by
      cases e with
      | completed a b => rfl
      | persistRecord a b => rfl
      | persistManifest entries =>
        exact absurd rfl (h _ (List.mem_cons_self _ _) entries)
    rw [he]
    exact ih _ (fun x hx => h x (List.mem_cons_of_mem _ hx))

theorem manifestAt_midrun {F N ρ ε : Type} [DecidableEq N]
    (analyze : F → Except ε ρ) (nameOf : F → N) (files : List F) (k : Nat)
    (hk : k ≤ (processOCRTrace analyze nameOf files).length
        + (processOCRRun analyze nameOf files).length) :
    manifestAt (mainTrace analyze nameOf files) k = [] := by
  unfold manifestAt
  have htake : (mainTrace analyze nameOf files).take k
      = ((processOCRTrace analyze nameOf files
          ++ (processOCRRun analyze nameOf files).map
              (fun p => RunEvent.persistRecord p.1 p.2))).take k := by
    unfold mainTrace saveOCRTrace
    rw [← List.append_assoc]
    exact List.take_append_of_le_length
      (by rw [List.length_append, List.length_map]; exact hk)
  rw [htake]
  apply foldl_manifestUpd_id
  intro e he entries
  have he2 := List.mem_of_mem_take he
  rcases List.mem_append.mp he2 with hA | hB
  · unfold processOCRTrace at hA
    obtain ⟨f, _, rfl⟩ := List.mem_map.mp hA
    simp
  · obtain ⟨p, _, rfl⟩ := List.mem_map.mp hB
    simp

theorem except_toOption_eq_some {ε ρ : Type} (x : Except ε ρ) (r : ρ) :
    x.toOption = some r ↔ x = Except.ok r := by
  cases x <;> simp [Except.toOption]

/-! ## The claims -/

/-- C2: for every finite sequence of work items and every positive batch
size `B`, `chunk` produces exactly `ceil(N/B)` batches (here the Nat
ceiling `(N + B - 1) / B`), every batch except possibly the last has
exactly `B` items, and concatenating the batches in order reproduces the
input sequence. -/
theorem chunk_partitions {α : Type} (arr : List α) (B : Nat) (hB : 0 < B) :
    chunk arr (B : Int) = ChunkResult.ok (chunkSlices arr B) ∧
    (chunkSlices arr B).length = (arr.length + B - 1) / B ∧
    (∀ i, ∀ h : i + 1 < (chunkSlices arr B).length,
      ((chunkSlices arr B).get ⟨i, Nat.lt_of_succ_lt h⟩).length = B) ∧
    (chunkSlices arr B).flatten = arr :=
  ⟨chunk_pos arr B hB, chunkSlices_length arr B,
   fun _ h => chunkSlices_size_of_not_last hB h,
   chunkSlices_flatten hB arr⟩

/-- Witness for C2 at five items and batch size two. -/
theorem chunk_partitions_witness :
    chunk [0, 1, 2, 3, 4] (2 : Int)
        = ChunkResult.ok (chunkSlices [0, 1, 2, 3, 4] 2) ∧
    (chunkSlices [0, 1, 2, 3, 4] 2).length = 3 ∧
    (chunkSlices [0, 1, 2, 3, 4] 2).flatten = [0, 1, 2, 3, 4] :=
  ⟨(chunk_partitions [0, 1, 2, 3, 4] 2 (by decide)).1,
   ((chunk_partitions [0, 1, 2, 3, 4] 2 (by decide)).2.1).trans (by decide),
   (chunk_partitions [0, 1, 2, 3, 4] 2 (by decide)).2.2.2⟩

/-- C1: if the inference call fails for some items, the run still
completes (`RunOutcome.ok`), and its result contains the record of every
item whose whole chain (invocation, transformation, persistence)
succeeded: an item-level error is caught at the `Promise.allSettled`
boundary and never aborts the batch or the run or discards sibling
results. -/
theorem analyzeReceipts_isolates_failures {ι π ρ ε : Type}
    (invoke : ι → Except ε π) (transform : π → Except ε ρ)
    (save : ρ → Except ε Unit) (items : List ι) (B : Int) (hB : 0 < B)
    (item : ι) (payload : π) (record : ρ)
    (hmem : item ∈ items) (hinv : invoke item = Except.ok payload)
    (htr : transform payload = Except.ok record)
    (hsv : save record = Except.ok ()) :
    ∃ rs, analyzeReceipts invoke transform save items B = RunOutcome.ok rs
      ∧ record ∈ rs := by
  refine ⟨items.filterMap (fun it => (processItem invoke transform save it).toOption),
    ?_, ?_⟩
  · unfold analyzeReceipts
    rw [analyzeReceiptsL_eq invoke transform save items hB]
  · apply List.mem_filterMap.mpr
    refine ⟨item, hmem, ?_⟩
    have hitem : processItem invoke transform save item = Except.ok record := by
      simp only [processItem, hinv, htr, hsv]
    rw [hitem]
    rfl

/-- Witness for C1: the invoker fails on item 1 only; item 2 still shows
up as a success in the completed run. -/
theorem analyzeReceipts_isolates_failures_witness :
    ∃ rs, analyzeReceipts
        (fun i => match i with
          | 1 => Except.error ()
          | _ => (Except.ok i : Except Unit Nat))
        (fun p => (Except.ok p : Except Unit Nat))
        (fun _ => (Except.ok () : Except Unit Unit))
        [0, 1, 2] 2 = RunOutcome.ok rs ∧ 2 ∈ rs :=
  analyzeReceipts_isolates_failures _ _ _ [0, 1, 2] 2 (by decide) 2 2 2
    (by decide) rfl rfl rfl

/-- C3, counterexample: an item whose invocation and transformation both
succeed but whose persistence fails is not in the returned records (the
claim would require it to be a `Succeeded` entry), and nothing in the
returned value reports it as failed. -/
theorem analyzeReceipts_persistence_failure_cx :
    analyzeReceipts (fun i => (Except.ok i : Except Unit Nat))
        (fun p => (Except.ok p : Except Unit Nat))
        (fun _ => (Except.error () : Except Unit Unit)) [0] 1
      = RunOutcome.ok [] ∧
    (fun i => (Except.ok i : Except Unit Nat)) 0 = Except.ok 0 ∧
    (fun p => (Except.ok p : Except Unit Nat)) 0 = Except.ok 0 :=
  ⟨rfl, rfl, rfl⟩

/-- C3 amended: the returned records are exactly the items for which
invocation, transformation, AND persistence all succeeded; every other
item is simply absent from the returned value (its error is caught and
logged, not returned or stage-tagged). -/
theorem analyzeReceipts_succeeded_iff_chain_ok {ι π ρ ε : Type}
    (invoke : ι → Except ε π) (transform : π → Except ε ρ)
    (save : ρ → Except ε Unit) (items : List ι) (B : Int) (rs : List ρ)
    (hB : 0 < B)
    (hrun : analyzeReceipts invoke transform save items B = RunOutcome.ok rs)
    (record : ρ) :
    record ∈ rs ↔
      ∃ item ∈ items, processItem invoke transform save item = Except.ok record := by
  unfold analyzeReceipts at hrun
  rw [analyzeReceiptsL_eq invoke transform save items hB] at hrun
  have hrs : rs = items.filterMap
      (fun it => (processItem invoke transform save it).toOption) := by
    injection hrun with h
    exact h.symm
  subst hrs
  simp only [List.mem_filterMap, except_toOption_eq_some]

/-- Witness for the amended C3. -/
theorem analyzeReceipts_succeeded_iff_chain_ok_witness :
    (2 : Nat) ∈ [2] ↔ ∃ item ∈ [0],
      processItem (fun i => (Except.ok i : Except Unit Nat))
        (fun p => (Except.ok (p + 2) : Except Unit Nat))
        (fun _ => (Except.ok () : Except Unit Unit)) item = Except.ok 2 :=
  analyzeReceipts_succeeded_iff_chain_ok
    (fun i => (Except.ok i : Except Unit Nat))
    (fun p => (Except.ok (p + 2) : Except Unit Nat))
    (fun _ => (Except.ok () : Except Unit Unit)) [0] 1 [2] (by decide) rfl 2

/-- C4, counterexample: the `processOCR` controller
(src/src/scripts/ocr/index.ts lines 163-167) sleeps a fixed 60000 ms
after a non-final chunk; at elapsed time 70000 the claimed duration
`max(0, 60000 - 70000)` is `0`, so the claim fails on this controller. -/
theorem processOCRSleep_cx :
    processOCRSleep true ≠ max 0 ((60000 : Int) - 70000) := by decide

/-- C4 amended: the `analyzeReceipts` controller sleeps exactly
`max(0, window - elapsed)` after each non-final batch and never after the
final one; the `processOCR` controller instead sleeps a fixed 60000 ms
after every non-final chunk regardless of elapsed time, and never after
the final one. -/
theorem rateLimitSleep_spec (e W : Int) (he : 0 ≤ e) (hW : 0 ≤ W) :
    rateLimitSleep e W true = max 0 (W - e) ∧
    rateLimitSleep e W false = 0 ∧
    processOCRSleep true = 60000 ∧
    processOCRSleep false = 0 := by
  refine ⟨?_, ?_, rfl, rfl⟩
  · unfold rateLimitSleep
    by_cases h : e < W
    · rw [if_pos ⟨h, rfl⟩]
      omega
    · rw [if_neg (by simp [h])]
      omega
  · unfold rateLimitSleep
    rw [if_neg (by simp)]

/-- Witness for the amended C4 at elapsed 20000 and window 60000. -/
theorem rateLimitSleep_spec_witness :
    rateLimitSleep 20000 60000 true = max 0 ((60000 : Int) - 20000) ∧
    rateLimitSleep 20000 60000 false = 0 ∧
    processOCRSleep true = 60000 ∧
    processOCRSleep false = 0 :=
  rateLimitSleep_spec 20000 60000 (by decide) (by decide)

/-- C5, counterexample: at batch size `-1` the run does not fail at all,
let alone with an `InvalidConfiguration` error: it completes successfully
with an empty result and performs no invocation. -/
theorem analyzeReceipts_negative_batchSize_cx :
    analyzeReceiptsL (fun i => (Except.ok i : Except Unit Nat))
        (fun p => (Except.ok p : Except Unit Nat))
        (fun _ => (Except.ok () : Except Unit Unit)) [0, 1] (-1)
      = (RunOutcome.ok [], []) := rfl

/-- C5 amended: the source performs no batch-size validation and has no
`InvalidConfiguration` error.  For a negative batch size the run completes
immediately with an empty result and zero invocations; for batch size `0`
on a nonempty input it aborts before any invocation, but with the
JavaScript `RangeError` thrown while materializing the batch array. -/
theorem analyzeReceipts_no_batchSize_validation {ι π ρ ε : Type}
    (invoke : ι → Except ε π) (transform : π → Except ε ρ)
    (save : ρ → Except ε Unit) (items : List ι) (B : Int) :
    (B < 0 →
      analyzeReceiptsL invoke transform save items B = (RunOutcome.ok [], [])) ∧
    (B = 0 → items ≠ [] →
      analyzeReceiptsL invoke transform save items B
        = (RunOutcome.jsRangeError, [])) := by
  constructor
  · intro hB
    have hc : chunk items B = ChunkResult.ok [] := by
      unfold chunk
      rw [if_neg (by omega), if_neg (by omega)]
    unfold analyzeReceiptsL
    rw [hc]
    rfl
  · intro hB hne
    subst hB
    have hc : chunk items 0 = ChunkResult.rangeError := by
      unfold chunk
      rw [if_neg (by omega), if_pos rfl]
      cases items with
      | nil => exact absurd rfl hne
      | cons a l => rfl
    unfold analyzeReceiptsL
    rw [hc]

/-- Witness for the amended C5 at batch sizes -2 and 0. -/
theorem analyzeReceipts_no_batchSize_validation_witness :
    analyzeReceiptsL (fun i => (Except.ok i : Except Unit Nat))
        (fun p => (Except.ok p : Except Unit Nat))
        (fun _ => (Except.ok () : Except Unit Unit)) [0] (-2)
      = (RunOutcome.ok [], []) ∧
    analyzeReceiptsL (fun i => (Except.ok i : Except Unit Nat))
        (fun p => (Except.ok p : Except Unit Nat))
        (fun _ => (Except.ok () : Except Unit Unit)) [0] 0
      = (RunOutcome.jsRangeError, []) :=
  ⟨(analyzeReceipts_no_batchSize_validation
      (fun i => (Except.ok i : Except Unit Nat))
      (fun p => (Except.ok p : Except Unit Nat))
      (fun _ => (Except.ok () : Except Unit Unit)) [0] (-2)).1 (by decide),
   (analyzeReceipts_no_batchSize_validation
      (fun i => (Except.ok i : Except Unit Nat))
      (fun p => (Except.ok p : Except Unit Nat))
      (fun _ => (Except.ok () : Except Unit Unit)) [0] 0).2 rfl (by decide)⟩

/-- C6: over a run with distinct work items, the inference invoker is
called at most once per item: the invocation log of the run is exactly the
item list, whatever the outcomes of the other items are. -/
theorem invocationLog_count_le_one {ι π ρ ε : Type} [DecidableEq ι]
    (invoke : ι → Except ε π) (transform : π → Except ε ρ)
    (save : ρ → Except ε Unit) (items : List ι) (B : Int)
    (hB : 0 < B) (hnd : items.Nodup) (item : ι) :
    (invocationLog invoke transform save items B).count item ≤ 1 := by
  unfold invocationLog
  rw [analyzeReceiptsL_eq invoke transform save items hB]
  exact List.nodup_iff_count_le_one.mp hnd item

/-- Witness for C6: injected failure on item 1 does not make any item be
submitted twice. -/
theorem invocationLog_count_le_one_witness :
    (invocationLog
        (fun i => match i with
          | 1 => Except.error ()
          | _ => (Except.ok i : Except Unit Nat))
        (fun p => (Except.ok p : Except Unit Nat))
        (fun _ => (Except.ok () : Except Unit Unit)) [0, 1, 2] 2).count 1 ≤ 1 :=
  invocationLog_count_le_one _ _ _ [0, 1, 2] 2 (by decide) (by decide) 1

/-- C9: the run's records are the input order restricted to the items
whose chain succeeded: each batch collects its settled outcomes in
submission order keeping the fulfilled ones, and batches are concatenated
in index order, so the result is `items.filterMap` of the per-item
chain. -/
theorem analyzeReceipts_preserves_order {ι π ρ ε : Type}
    (invoke : ι → Except ε π) (transform : π → Except ε ρ)
    (save : ρ → Except ε Unit) (items : List ι) (B : Int) (hB : 0 < B) :
    analyzeReceipts invoke transform save items B
      = RunOutcome.ok (items.filterMap
          (fun it => (processItem invoke transform save it).toOption)) := by
  unfold analyzeReceipts
  rw [analyzeReceiptsL_eq invoke transform save items hB]

/-- Witness for C9: with a failure on the middle item the result is the
two surviving records in input order. -/
theorem analyzeReceipts_preserves_order_witness :
    analyzeReceipts
        (fun i => match i with
          | 1 => Except.error ()
          | _ => (Except.ok i : Except Unit Nat))
        (fun p => (Except.ok p : Except Unit Nat))
        (fun _ => (Except.ok () : Except Unit Unit)) [0, 1, 2] 2
      = RunOutcome.ok [0, 2] :=
  (analyzeReceipts_preserves_order _ _ _ [0, 1, 2] 2 (by decide)).trans (by rfl)

/-- C7: after the run ends, the consolidated manifest (`all_results.json`,
the last manifest write of the trace) maps exactly the identifiers of the
successfully analyzed files to their records: a lookup succeeds with `r`
precisely when some input file with that identifier was analyzed to `r`;
in particular every failed identifier is absent. -/
theorem manifest_lookup_iff_succeeded {F N ρ ε : Type} [DecidableEq N]
    (analyze : F → Except ε ρ) (nameOf : F → N) (files : List F)
    (hnd : (files.map nameOf).Nodup) (n : N) (r : ρ) :
    lookupMap (manifestAt (mainTrace analyze nameOf files)
        (mainTrace analyze nameOf files).length) n = some r
      ↔ ∃ f ∈ files, nameOf f = n ∧ analyze f = Except.ok r := by
  rw [manifestAt_final]
  exact lookupMap_processOCRRun analyze nameOf files hnd n r

/-- Witness for C7: file 1 succeeds with record 10, file 2 fails; the
final manifest maps 1 to 10. -/
theorem manifest_lookup_iff_succeeded_witness :
    lookupMap (manifestAt
        (mainTrace (fun f : Nat =>
            if f = 1 then (Except.ok 10 : Except Unit Nat) else Except.error ())
          (fun f : Nat => f) [1, 2])
        (mainTrace (fun f : Nat =>
            if f = 1 then (Except.ok 10 : Except Unit Nat) else Except.error ())
          (fun f : Nat => f) [1, 2]).length) 1 = some 10
      ↔ ∃ f ∈ ([1, 2] : List Nat), (fun f : Nat => f) f = 1 ∧
          (fun f : Nat =>
            if f = 1 then (Except.ok 10 : Except Unit Nat) else Except.error ()) f
            = Except.ok 10 :=
  manifest_lookup_iff_succeeded
    (fun f : Nat =>
      if f = 1 then (Except.ok 10 : Except Unit Nat) else Except.error ())
    (fun f : Nat => f) [1, 2] (by decide) 1 10

/-- C8, counterexample: right after the first item has completed
successfully (one event into the trace), the persisted manifest is still
empty and does not contain that item's identifier: the manifest is not
updated as items complete. -/
theorem manifest_not_updated_midrun_cx :
    RunEvent.completed 1 true ∈
        (mainTrace (fun _ => (Except.ok 0 : Except Unit Nat))
          (fun f => f) [1]).take 1 ∧
    manifestAt (mainTrace (fun _ => (Except.ok 0 : Except Unit Nat))
        (fun f => f) [1]) 1 = [] ∧
    lookupMap (manifestAt (mainTrace (fun _ => (Except.ok 0 : Except Unit Nat))
        (fun f => f) [1]) 1) 1 = none := by
  refine ⟨by decide, rfl, rfl⟩

/-- C8 amended: the consolidated manifest is written exactly once, at the
very end of the run: at every point up to and including the last per-item
record write no persisted manifest exists (it is empty), and only the
final event writes it, at which point it is the complete success map of
the run. -/
theorem manifest_single_write_at_end {F N ρ ε : Type} [DecidableEq N]
    (analyze : F → Except ε ρ) (nameOf : F → N) (files : List F) :
    (∀ k, k ≤ (processOCRTrace analyze nameOf files).length
        + (processOCRRun analyze nameOf files).length →
      manifestAt (mainTrace analyze nameOf files) k = []) ∧
    manifestAt (mainTrace analyze nameOf files)
        (mainTrace analyze nameOf files).length
      = processOCRRun analyze nameOf files :=
  ⟨fun k hk => manifestAt_midrun analyze nameOf files k hk,
   manifestAt_final analyze nameOf files⟩

/-- Witness for the amended C8 on a one-file run. -/
theorem manifest_single_write_at_end_witness :
    manifestAt (mainTrace (fun _ => (Except.ok 0 : Except Unit Nat))
        (fun f => f) [1]) 2 = [] ∧
    manifestAt (mainTrace (fun _ => (Except.ok 0 : Except Unit Nat))
        (fun f => f) [1])
        (mainTrace (fun _ => (Except.ok 0 : Except Unit Nat))
          (fun f => f) [1]).length
      = processOCRRun (fun _ => (Except.ok 0 : Except Unit Nat))
          (fun f => f) [1] :=
  ⟨(manifest_single_write_at_end (fun _ => (Except.ok 0 : Except Unit Nat))
      (fun f => f) [1]).1 2 (by decide),
   (manifest_single_write_at_end (fun _ => (Except.ok 0 : Except Unit Nat))
      (fun f => f) [1]).2⟩

/-- C10: in every comparison row the evaluator generates, the
`store_name` row is a MATCH regardless of the two compared values (so a
`store_name` disagreement never contributes to the reported mismatch
count), and every other field's row is a MATCH exactly when the string
renderings of the two values are equal. -/
theorem compareReceipts_store_name_policy (fn : String) (out ev : Receipt) :
    (∀ row ∈ compareReceipts fn out ev,
        row.field = ReceiptField.store_name →
        row.comparison_result = ComparisonSymbol.MATCH) ∧
    (∀ row ∈ compareReceipts fn out ev,
        row.field ≠ ReceiptField.store_name →
        (row.comparison_result = ComparisonSymbol.MATCH ↔
          row.outputs_value = row.evaluate_value)) ∧
    (∀ row ∈ compareReceipts fn out ev,
        row.comparison_result = ComparisonSymbol.MISMATCH →
        row.field ≠ ReceiptField.store_name) := by
  refine ⟨?_, ?_, ?_⟩
  · intro row hrow hfield
    simp only [compareReceipts, List.mem_map] at hrow
    obtain ⟨f, hf, rfl⟩ := hrow
    cases f <;> simp_all
  · intro row hrow hfield
    simp only [compareReceipts, List.mem_map] at hrow
    obtain ⟨f, hf, rfl⟩ := hrow
    cases f <;> simp_all
  · intro row hrow hres
    simp only [compareReceipts, List.mem_map] at hrow
    obtain ⟨f, hf, rfl⟩ := hrow
    cases f <;> simp_all

/-- Witness for C10: with differing store names the store-name row of the
generated comparison is nonetheless a MATCH. -/
theorem compareReceipts_store_name_policy_witness :
    (ComparisonRow.mk "1" ReceiptField.store_name "Alice" "Bob"
        ComparisonSymbol.MATCH).comparison_result = ComparisonSymbol.MATCH :=
  (compareReceipts_store_name_policy "1"
      (Receipt.mk "2024-01-01" "T1" "Alice" 10 8 100)
      (Receipt.mk "2024-01-01" "T1" "Bob" 10 8 100)).1
    (ComparisonRow.mk "1" ReceiptField.store_name "Alice" "Bob"
      ComparisonSymbol.MATCH)
    (by decide) rfl
